import Mathlib

/-
Shallow embedding of `fracnum/plotting_utils.py` and verification of its
specification.

Modelling conventions:
- Python floats are modelled as exact rationals (`ℚ`); Python ints as `ℤ`.
  A Python numeric value (which may be an int or a float, and whose `str`
  rendering depends on which) is modelled by the sum type `PyNum`.
- `str(...)` of a number is modelled by `pyStr`; for floats whose value has
  a finite decimal expansion this produces the usual decimal rendering with
  at least one fractional digit (`str(1.0) = "1.0"`), with no trailing
  zeros, mirroring Python's shortest-repr printing of such values.
- `np.round(v, 2)` is modelled by `npRound2` (round half to even, ints kept
  as ints, as numpy does).
- matplotlib colormaps are modelled as functions `ℚ → Color` with
  `Color := ℚ × ℚ × ℚ × ℚ` (RGBA).  `LinearSegmentedColormap.from_list`
  applied to a list of sampled colors is modelled by its defining sample
  list together with the piecewise-linear evaluation function `cmEval`.
- matplotlib `Axes`, figures and the side effects of drawing are modelled by
  explicit result records (`LineCollectionModel`, `PhaseFig`, `SignalFig`)
  capturing every datum the code hands to the backend.
- Python keyword-argument dictionaries are modelled by association lists
  with first-match lookup; `d.update(kw)` over the singleton default dict
  `{"capstyle": "butt"}` is modelled by appending the default entry after
  the caller's entries, which gives the same lookup semantics.
- Python default parameter values (e.g. `cmap_trunc = [0, 1]`,
  `forcing_params = None`) cannot be attached to binders here; the default
  gradient range is recorded in the constant `cmapTruncDefault`.
-/

namespace Fracnum

/-! ### Decimal rendering of Python numbers -/

/-- Character for a single decimal digit `d` (`0 ≤ d ≤ 9`). -/
def digCh (d : ℕ) : Char := Char.ofNat (48 + d)

/-- Fuel-driven decimal digit expansion of a natural number (most significant
digit first).  `natCharsAux (n+1) n` always has enough fuel. -/
def natCharsAux : ℕ → ℕ → List Char
  | 0, _ => []
  | fuel + 1, n => if n < 10 then [digCh n] else natCharsAux fuel (n / 10) ++ [digCh (n % 10)]

/-- Decimal digits of a natural number, as printed by Python. -/
def natChars (n : ℕ) : List Char := natCharsAux (n + 1) n

/-- Decimal rendering of an integer, as printed by Python (`str` of an int). -/
def intChars (i : ℤ) : List Char :=
  if i < 0 then '-' :: natChars i.natAbs else natChars i.natAbs

/-- Least exponent `k ≤ d` with `d ∣ 10 ^ k`, when one exists: the number of
decimal digits needed after the point for a fraction with denominator `d`. -/
def decExp (d : ℕ) : Option ℕ := (List.range (d + 1)).find? (fun k => decide (d ∣ 10 ^ k))

/-- Left-pad a digit list with zeros to length `k`. -/
def padZeros (k : ℕ) (l : List Char) : List Char := List.replicate (k - l.length) '0' ++ l

/-- Decimal rendering of a rational float value, as printed by Python for a
float whose value has a finite decimal expansion: sign, integer part, point,
fractional digits (at least one, no trailing zeros since the exponent from
`decExp` is minimal).  Values with no finite decimal expansion (never produced
by the program's inputs of interest) fall back to a fraction rendering; every
branch emits only digits, `-`, `.` and `/`. -/
def floatChars (q : ℚ) : List Char :=
  match decExp q.den with
  | some k =>
      let m : ℕ := q.num.natAbs * (10 ^ k / q.den)
      let ip := m / 10 ^ k
      let fp := m % 10 ^ k
      let fracDigits := if k = 0 then ['0'] else padZeros k (natChars fp)
      (if q.num < 0 then ['-'] else []) ++ natChars ip ++ ['.'] ++ fracDigits
  | none => intChars q.num ++ ['/'] ++ natChars q.den

/-- A Python number: either an int or a float.  The distinction matters only
for `str` rendering (`str(2) = "2"` but `str(2.0) = "2.0"`) and for
`np.round`, which keeps ints as ints. -/
inductive PyNum where
  | int : ℤ → PyNum
  | float : ℚ → PyNum
deriving DecidableEq

/-- Numeric value of a Python number (Python compares ints and floats by
value, e.g. `self.alpha == 1`). -/
def PyNum.val : PyNum → ℚ
  | .int n => (n : ℚ)
  | .float q => q

/-- Characters of `str(v)` for a Python number `v`. -/
def pyChars : PyNum → List Char
  | .int n => intChars n
  | .float q => floatChars q

/-- Model of Python `str(v)` for a number `v`. -/
def pyStr (v : PyNum) : String := String.mk (pyChars v)

/-- Round half to even of `q * s` to an integer (the rounding used by
`np.round`), computed on the numerator and denominator: with
`n = q.num * s` and `d = q.den > 0`, the floor of `q * s` is `n.ediv d` and
the fractional part is `(n - f * d) / d`. -/
def roundHalfEvenScaled (q : ℚ) (s : ℕ) : ℤ :=
  let n := q.num * (s : ℤ)
  let d := (q.den : ℤ)
  let f := n.ediv d
  let r := n - f * d
  if 2 * r = d then (if f % 2 = 0 then f else f + 1)
  else if 2 * r < d then f else f + 1

/-- Model of `np.round(v, 2)`: ints are returned unchanged, floats are
rounded half-to-even at the second decimal. -/
def npRound2 : PyNum → PyNum
  | .int n => .int n
  | .float q => .float (mkRat (roundHalfEvenScaled q 100) 100)

/-- Truncation of a rational toward zero, as Python `int()` does on a float. -/
def ratTrunc (q : ℚ) : ℤ := if q < 0 then -⌊-q⌋ else ⌊q⌋

/-- Model of Python `int(v)`. -/
def pyToInt : PyNum → ℤ
  | .int n => n
  | .float q => ratTrunc q

/-- Model of the Python format spec `{v:.4f}` used for the computation time
in the phase-plot label. -/
def fmtFixed4 (q : ℚ) : String :=
  let m := roundHalfEvenScaled q 10000
  (if m < 0 then "-" else "") ++ String.mk (natChars (m.natAbs / 10000)) ++ "." ++
    String.mk (padZeros 4 (natChars (m.natAbs % 10000)))

/-! ### Geometry of `colored_line` -/

/-- A 2-D point `(x, y)`. -/
abbrev Pt := ℚ × ℚ

/-- An RGBA color. -/
abbrev Color := ℚ × ℚ × ℚ × ℚ

/-- Model of `np.linspace(a, b, n)`: `n` evenly spaced samples from `a` to
`b` inclusive. -/
def linspace (a b : ℚ) (n : ℕ) : List ℚ :=
  (List.range n).map (fun (i : ℕ) => a + (b - a) * (i : ℚ) / ((n : ℚ) - 1))

/-- Componentwise affine interpolation between two colors. -/
def lerpC (u v : Color) (t : ℚ) : Color :=
  (u.1 + t * (v.1 - u.1), u.2.1 + t * (v.2.1 - u.2.1),
   u.2.2.1 + t * (v.2.2.1 - u.2.2.1), u.2.2.2 + t * (v.2.2.2 - u.2.2.2))

/-- Evaluation of the colormap built by
`LinearSegmentedColormap.from_list` from the sample list `cs`: the samples
sit at `n` evenly spaced positions in `[0, 1]` and are interpolated linearly
between consecutive positions. -/
def cmEval (cs : List Color) (t : ℚ) : Color :=
  let k := cs.length
  let s := t * ((k : ℚ) - 1)
  let j := (⌊s⌋).toNat
  if j + 1 < k then lerpC (cs.getD j (0, 0, 0, 0)) (cs.getD (j + 1) (0, 0, 0, 0)) (s - (j : ℚ))
  else cs.getD (k - 1) (0, 0, 0, 0)

/-- Model of `truncate_colormap(cmap, minval, maxval, n)` (the Python
defaults are `minval=0.2`, `maxval=0.8`, `n=100`): the defining sample list
`cmap(np.linspace(minval, maxval, n))` of the new gradient handed to
`LinearSegmentedColormap.from_list`. -/
def truncate_colormap (cmap : ℚ → Color) (minval maxval : ℚ) (n : ℕ) : List Color :=
  (linspace minval maxval n).map cmap

/-- Midpoint sequence of `colored_line`:
`np.hstack((v[0], 0.5 * (v[1:] + v[:-1]), v[-1]))`. -/
def midpts (v : List ℚ) : List ℚ :=
  v.headI :: (List.zipWith (fun a b => (1 / 2 : ℚ) * (a + b)) v.tail v ++ [v.getLastD 0])

/-- Three-list pointwise zip, used to stack the start/mid/end coordinates. -/
def zipWith3 {α β γ δ : Type} (f : α → β → γ → δ) : List α → List β → List γ → List δ
  | a :: as, b :: bs, c :: cs => f a b c :: zipWith3 f as bs cs
  | _, _, _ => []

/-- Rows of `np.column_stack((x_midpts[:-1], y_midpts[:-1]))`. -/
def coordStart (xm ym : List ℚ) : List Pt := List.zipWith Prod.mk xm.dropLast ym.dropLast

/-- Rows of `np.column_stack((x, y))`. -/
def coordMid (x y : List ℚ) : List Pt := List.zipWith Prod.mk x y

/-- Rows of `np.column_stack((x_midpts[1:], y_midpts[1:]))`. -/
def coordEnd (xm ym : List ℚ) : List Pt := List.zipWith Prod.mk xm.tail ym.tail

/-- The stacked segment array of `colored_line`: one 3-point chain
`[start, mid, end]` per input point. -/
def segmentsOf (x y : List ℚ) : List (List Pt) :=
  zipWith3 (fun s m e => [s, m, e])
    (coordStart (midpts x) (midpts y)) (coordMid x y) (coordEnd (midpts x) (midpts y))

/-! ### Keyword arguments and the line collection -/

/-- A keyword-argument value as passed through `**lc_kwargs`. -/
inductive KwArg where
  | str : String → KwArg
  | num : ℚ → KwArg
  | arr : List ℚ → KwArg
deriving DecidableEq

/-- Keys of a keyword-argument dictionary. -/
def kwKeys (kw : List (String × KwArg)) : List String := kw.map Prod.fst

/-- First-match lookup in a keyword-argument dictionary. -/
def kwLookup (kw : List (String × KwArg)) (k : String) : Option KwArg :=
  (kw.find? (fun p => p.1 == k)).map Prod.snd

/-- Model of the `LineCollection` state observable by the program: the
segment array, the color array (`set_array`), the colormap (a function, as
returned by `get_cmap`), the defining sample list of the colormap when it
was built by `from_list` (`none` for a named colormap), and the remaining
constructor options. -/
structure LineCollectionModel where
  segments : List (List Pt)
  arrayVal : Option (List ℚ)
  cmapName : String
  cmap : ℚ → Color
  cmapData : Option (List Color)
  capstyle : String
  opts : List (String × KwArg)

/-- Result of `colored_line`: the warnings emitted and the line collection
added to the axes (which `ax.add_collection` returns). -/
structure CLResult where
  warns : List String
  lc : LineCollectionModel

/-- The Python default of the `cmap_trunc` parameter of `colored_line`. -/
def cmapTruncDefault : ℚ × ℚ := (0, 1)

/-- Model of `colored_line(x, y, c, ax, cmap_trunc, **lc_kwargs)`.  The
colormap registry (resolution of a colormap name to the colormap, done by
matplotlib when the `cmap` keyword is a string) is passed as `reg`. -/
def colored_line (x y c : List ℚ) (reg : String → ℚ → Color) (cmap_trunc : ℚ × ℚ)
    (lc_kwargs : List (String × KwArg)) : CLResult :=
  let warns :=
    if "array" ∈ kwKeys lc_kwargs then
      ["The provided \"array\" keyword argument will be overridden"]
    else []
  let merged := lc_kwargs ++ [("capstyle", KwArg.str "butt")]
  let segments := segmentsOf x y
  let cmapName := match kwLookup merged "cmap" with
    | some (.str s) => s
    | _ => "viridis"
  let lc0 : LineCollectionModel :=
    { segments := segments
      arrayVal := match kwLookup merged "array" with
        | some (.arr a) => some a
        | _ => none
      cmapName := cmapName
      cmap := reg cmapName
      cmapData := none
      capstyle := match kwLookup merged "capstyle" with
        | some (.str s) => s
        | _ => "butt"
      opts := merged }
  let lc1 := { lc0 with arrayVal := some c }
  let new_cmap := truncate_colormap lc1.cmap cmap_trunc.1 cmap_trunc.2 x.length
  let lc2 := { lc1 with cmap := cmEval new_cmap, cmapData := some new_cmap }
  { warns := warns, lc := lc2 }

/-! ### The VdP plotter -/

/-- The oscillator parameter mapping; the code reads only `params['mu']`. -/
structure OscParams where
  mu : PyNum
deriving DecidableEq

/-- The forcing parameter mapping, read as `forcing_params['A']` and
`forcing_params['omega']`. -/
structure ForcingParams where
  A : PyNum
  omega : PyNum
deriving DecidableEq

/-- The state of a `VdP_Plotter` instance: the constructor arguments stored
on `self`, plus the two caption strings derived at construction.  The field
name `param_desciption` keeps the source's spelling. -/
structure VdPPlotter where
  x : List ℚ
  xder : List ℚ
  t : List ℚ
  params : OscParams
  alpha : PyNum
  dt : PyNum
  T : PyNum
  n_eval : PyNum
  comp_time : ℚ
  forcing_params : Option ForcingParams
  title : String
  param_desciption : String

/-- Model of `VdP_Plotter.generate_captions`, as a function of the fields it
reads from `self`. -/
def generate_captions (params : OscParams) (alpha dt T n_eval : PyNum)
    (forcing_params : Option ForcingParams) : String × String :=
  let fs : String × String :=
    match forcing_params with
    | none => ("", "")
    | some fp =>
        if fp.A.val ≠ 0 then
          ("forced ", ", A=" ++ pyStr fp.A ++ ", \\omega=" ++ pyStr (npRound2 fp.omega))
        else ("", "")
  let forcing_string := fs.1
  let forcing_settings_string := fs.2
  let fr : String × String :=
    if alpha.val = 1 then ("", "")
    else ("fractionally ", "\\alpha=" ++ pyStr alpha ++ ", ")
  let fractional_string := fr.1
  let fractional_settings_string := fr.2
  let title := fractional_string ++ "dampened " ++ forcing_string ++ "VdP Oscillator"
  let subtitle := "$" ++ fractional_settings_string ++ "\\mu=" ++ pyStr params.mu ++
    forcing_settings_string ++ ". T = " ++ pyStr (npRound2 T) ++ ", h=" ++
    pyStr (npRound2 dt) ++ ", q = " ++ pyStr (PyNum.int (pyToInt n_eval)) ++ "$"
  (title, subtitle)

/-- Model of `VdP_Plotter.__init__` (`forcing_params` defaults to `None` in
Python): stores every argument and derives the two captions. -/
def VdPPlotter.init (x xder t : List ℚ) (params : OscParams) (alpha dt T n_eval : PyNum)
    (comp_time : ℚ) (forcing_params : Option ForcingParams) : VdPPlotter :=
  let caps := generate_captions params alpha dt T n_eval forcing_params
  { x := x, xder := xder, t := t, params := params, alpha := alpha, dt := dt, T := T
    n_eval := n_eval, comp_time := comp_time, forcing_params := forcing_params
    title := caps.1, param_desciption := caps.2 }

/-- The method call `self.generate_captions()` as a state-passing operation:
it assigns no field of `self`. -/
def VdPPlotter.captions (p : VdPPlotter) : VdPPlotter × (String × String) :=
  (p, generate_captions p.params p.alpha p.dt p.T p.n_eval p.forcing_params)

/-- Python `max` over a nonempty list. -/
def pyMax (l : List ℚ) : ℚ :=
  match l with
  | [] => 0
  | h :: tl => tl.foldl max h

/-- Python `min` over a nonempty list. -/
def pyMin (l : List ℚ) : ℚ :=
  match l with
  | [] => 0
  | h :: tl => tl.foldl min h

/-- Everything `VdP_Plotter.phase` hands to the plotting backend. -/
structure PhaseFig where
  cl : CLResult
  colorbarLabel : String
  xlim : ℚ × ℚ
  ylim : ℚ × ℚ
  xlabel : String
  ylabel : String
  sup : String
  axTitle : String
  savedTo : Option String
  shown : Bool

/-- Model of `VdP_Plotter.phase(show, save_filepath)` (Python defaults:
`show=False`, `save_filepath=None`); the Python parameter `show` is renamed
`show_` because `show` is a Lean keyword.  The returned pair is the plotter
state after the call (no field is assigned) and the rendered figure. -/
def VdPPlotter.phase (p : VdPPlotter) (reg : String → ℚ → Color) (show_ : Bool)
    (save_filepath : Option String) : VdPPlotter × PhaseFig :=
  let lines := colored_line p.x p.xder p.t reg (15 / 100, 75 / 100)
    [("cmap", KwArg.str "magma_r"),
     ("label", KwArg.str ("Bernstein Splines (" ++ fmtFixed4 p.comp_time ++ " s)")),
     ("linewidth", KwArg.num 2)]
  let margin_pct : ℚ := 1 / 10
  let x_dist := pyMax p.x - pyMin p.x
  let margin_x := margin_pct * x_dist
  let y_dist := pyMax p.xder - pyMin p.xder
  let margin_y := margin_pct * y_dist
  (p,
   { cl := lines
     colorbarLabel := "$t$"
     xlim := (pyMin p.x - margin_x, pyMax p.x + margin_x)
     ylim := (pyMin p.xder - margin_y, pyMax p.xder + margin_y)
     xlabel := "$x$"
     ylabel := "$\\dot\x7bx\x7d$"
     sup := "Phase portrait " ++ p.title
     axTitle := p.param_desciption
     savedTo := save_filepath
     shown := show_ })

/-- Everything `VdP_Plotter.signal` hands to the plotting backend. -/
structure SignalFig where
  topPlot : List ℚ × List ℚ
  topYlabel : String
  botPlot : List ℚ × List ℚ
  botYlabel : String
  xlabel : String
  sup : String
  savedTo : Option String
  shown : Bool

/-- Model of `VdP_Plotter.signal(show, save_filepath)`. -/
def VdPPlotter.signal (p : VdPPlotter) (show_ : Bool) (save_filepath : Option String) :
    VdPPlotter × SignalFig :=
  (p,
   { topPlot := (p.t, p.x)
     topYlabel := "$x$"
     botPlot := (p.t, p.xder)
     botYlabel := "$\\dot\x7bx\x7d$"
     xlabel := "t"
     sup := "Signal of " ++ p.title ++ "\n" ++ p.param_desciption
     savedTo := save_filepath
     shown := show_ })

/-- Presence of active forcing: forcing parameters supplied and `A ≠ 0`. -/
def forcingActive (f : Option ForcingParams) : Prop :=
  ∃ fp, f = some fp ∧ fp.A.val ≠ 0

instance (f : Option ForcingParams) : Decidable (forcingActive f) := by
  unfold forcingActive
  cases f with
  | none => exact .isFalse (by simp)
  | some fp => exact decidable_of_iff (fp.A.val ≠ 0) (by simp)

/-! ### Properties of the midpoint sequence and of the segment array -/

lemma headI_eq_getD (v : List ℚ) : v.headI = v.getD 0 0 := by cases v <;> rfl

lemma length_midpts (v : List ℚ) (hv : v ≠ []) : (midpts v).length = v.length + 1 := by
  have h : 0 < v.length := List.length_pos.mpr hv
  simp [midpts]
  omega

lemma getD_midpts_zero (v : List ℚ) (d : ℚ) : (midpts v).getD 0 d = v.headI := rfl

lemma getD_midpts_succ (v : List ℚ) (d : ℚ) (i : ℕ) (hi : i < v.length - 1) :
    (midpts v).getD (i + 1) d = (1 / 2 : ℚ) * (v.getD (i + 1) 0 + v.getD i 0) := by
  have ht : i < v.tail.length := by simp [List.length_tail]; omega
  have hi1 : i + 1 < v.length := by omega
  have hi0 : i < v.length := by omega
  have hz : i < (List.zipWith (fun a b => (1 / 2 : ℚ) * (a + b)) v.tail v).length := by
    simp [List.length_tail]; omega
  calc (midpts v).getD (i + 1) d
      = (List.zipWith (fun a b => (1 / 2 : ℚ) * (a + b)) v.tail v ++ [v.getLastD 0]).getD i d := by
        simp [midpts]
    _ = (List.zipWith (fun a b => (1 / 2 : ℚ) * (a + b)) v.tail v).getD i d :=
        List.getD_append _ _ _ _ hz
    _ = (List.zipWith (fun a b => (1 / 2 : ℚ) * (a + b)) v.tail v)[i] :=
        List.getD_eq_getElem _ _ hz
    _ = (1 / 2 : ℚ) * (v.tail[i] + v[i]) := List.getElem_zipWith
    _ = (1 / 2 : ℚ) * (v[i + 1] + v[i]) := by rw [List.getElem_tail]
    _ = (1 / 2 : ℚ) * (v.getD (i + 1) 0 + v.getD i 0) := by
        rw [List.getD_eq_getElem v 0 hi1, List.getD_eq_getElem v 0 hi0]

lemma getD_midpts_length (v : List ℚ) (d : ℚ) (hv : v ≠ []) :
    (midpts v).getD v.length d = v.getLastD 0 := by
  obtain ⟨m, hm⟩ : ∃ m, v.length = m + 1 :=
    ⟨v.length - 1, by have := List.length_pos.mpr hv; omega⟩
  have hz : (List.zipWith (fun a b => (1 / 2 : ℚ) * (a + b)) v.tail v).length = m := by
    simp [List.length_tail]; omega
  rw [hm]
  calc (midpts v).getD (m + 1) d
      = (List.zipWith (fun a b => (1 / 2 : ℚ) * (a + b)) v.tail v ++ [v.getLastD 0]).getD m d := by
        simp [midpts]
    _ = [v.getLastD 0].getD (m - (List.zipWith (fun a b => (1 / 2 : ℚ) * (a + b)) v.tail v).length) d :=
        List.getD_append_right _ _ _ _ hz.le
    _ = v.getLastD 0 := by rw [hz]; simp

lemma getLastD_eq_getD (v : List ℚ) (hv : v ≠ []) : v.getLastD 0 = v.getD (v.length - 1) 0 := by
  have h : 0 < v.length := List.length_pos.mpr hv
  rw [List.getLastD_eq_getLast? , List.getLast?_eq_getElem?]
  rw [List.getD_eq_getElem v 0 (by omega)]
  simp [List.getElem?_eq_getElem (by omega : v.length - 1 < v.length)]

lemma zipWith3_eq_zipWith {α β γ δ : Type} (f : α → β → γ → δ) (as : List α) (bs : List β)
    (cs : List γ) :
    zipWith3 f as bs cs = List.zipWith (fun p c => f p.1 p.2 c) (List.zipWith Prod.mk as bs) cs := by
  induction as generalizing bs cs with
  | nil => cases bs <;> cases cs <;> rfl
  | cons a as ih =>
    cases bs with
    | nil => cases cs <;> rfl
    | cons b bs =>
      cases cs with
      | nil => rfl
      | cons c cs => simp [zipWith3, ih]

lemma length_segmentsOf (x y : List ℚ) (hx : x ≠ []) (hy : y.length = x.length) :
    (segmentsOf x y).length = x.length := by
  have hy' : y ≠ [] := by
    intro h
    subst h
    exact hx (List.length_eq_zero.mp hy.symm)
  simp [segmentsOf, zipWith3_eq_zipWith, coordStart, coordMid, coordEnd,
    length_midpts x hx, length_midpts y hy', hy]

lemma getD_segmentsOf (x y : List ℚ) (hx : x ≠ []) (hy : y.length = x.length) (i : ℕ)
    (hi : i < x.length) :
    (segmentsOf x y).getD i [] =
      [((midpts x).getD i 0, (midpts y).getD i 0), (x.getD i 0, y.getD i 0),
       ((midpts x).getD (i + 1) 0, (midpts y).getD (i + 1) 0)] := by
  have hy' : y ≠ [] := by
    intro h
    subst h
    exact hx (List.length_eq_zero.mp hy.symm)
  have hmx := length_midpts x hx
  have hmy := length_midpts y hy'
  have hlen := length_segmentsOf x y hx hy
  have hseg : i < (segmentsOf x y).length := by omega
  have hsx : i < (midpts x).dropLast.length := by simp [hmx]; omega
  have hsy : i < (midpts y).dropLast.length := by simp [hmy]; omega
  have hex : i < (midpts x).tail.length := by simp [hmx]; omega
  have hey : i < (midpts y).tail.length := by simp [hmy]; omega
  have hix : i < x.length := hi
  have hiy : i < y.length := by omega
  have hmx1 : i < (midpts x).length := by omega
  have hmy1 : i < (midpts y).length := by omega
  have hmx2 : i + 1 < (midpts x).length := by omega
  have hmy2 : i + 1 < (midpts y).length := by omega
  rw [List.getD_eq_getElem _ _ hseg]
  rw [List.getD_eq_getElem _ _ hmx1, List.getD_eq_getElem _ _ hmy1,
    List.getD_eq_getElem _ _ hix, List.getD_eq_getElem _ _ hiy,
    List.getD_eq_getElem _ _ hmx2, List.getD_eq_getElem _ _ hmy2]
  simp only [segmentsOf, zipWith3_eq_zipWith, coordStart, coordMid, coordEnd,
    List.getElem_zipWith, List.getElem_dropLast, List.getElem_tail]

/-- C1: for every input of N ≥ 2 points (x, y of equal length N, with N color
values), `colored_line` constructs exactly N sub-segments, each a 3-point
chain `[midpoint[i], point[i], midpoint[i+1]]`, and for every `i` in
`0..N-2` the last vertex of sub-segment `i` equals the first vertex of
sub-segment `i+1` exactly. -/
theorem C1_subsegment_chain (x y c : List ℚ) (reg : String → ℚ → Color) (tr : ℚ × ℚ)
    (kw : List (String × KwArg)) (hN : 2 ≤ x.length) (hy : y.length = x.length) :
    ((colored_line x y c reg tr kw).lc.segments).length = x.length ∧
    (∀ i, i < x.length → ((colored_line x y c reg tr kw).lc.segments).getD i [] =
      [((midpts x).getD i 0, (midpts y).getD i 0), (x.getD i 0, y.getD i 0),
       ((midpts x).getD (i + 1) 0, (midpts y).getD (i + 1) 0)]) ∧
    (∀ i, i < x.length → (((colored_line x y c reg tr kw).lc.segments).getD i []).length = 3) ∧
    (∀ i, i + 1 < x.length →
      (((colored_line x y c reg tr kw).lc.segments).getD i []).getLast? =
      (((colored_line x y c reg tr kw).lc.segments).getD (i + 1) []).head?) := by
  have hx : x ≠ [] := by
    intro h
    rw [h] at hN
    simp at hN
  have hsegs : (colored_line x y c reg tr kw).lc.segments = segmentsOf x y := rfl
  rw [hsegs]
  refine ⟨length_segmentsOf x y hx hy, ?_, ?_, ?_⟩
  · intro i hi
    exact getD_segmentsOf x y hx hy i hi
  · intro i hi
    rw [getD_segmentsOf x y hx hy i hi]
    rfl
  · intro i hi
    rw [getD_segmentsOf x y hx hy i (by omega), getD_segmentsOf x y hx hy (i + 1) (by omega)]
    simp

/-- Witness for C1 at `x = [0,1,2]`, `y = [1,0,1]`, `c = [0,1,2]`. -/
theorem C1_subsegment_chain_witness :
    ((colored_line [0, 1, 2] [1, 0, 1] [0, 1, 2] (fun _ _ => (0, 0, 0, 0)) (0, 1) []).lc.segments).length = 3 ∧
    (((colored_line [0, 1, 2] [1, 0, 1] [0, 1, 2] (fun _ _ => (0, 0, 0, 0)) (0, 1) []).lc.segments).getD 0 []).getLast? =
    (((colored_line [0, 1, 2] [1, 0, 1] [0, 1, 2] (fun _ _ => (0, 0, 0, 0)) (0, 1) []).lc.segments).getD 1 []).head? := by
  have h := C1_subsegment_chain [0, 1, 2] [1, 0, 1] [0, 1, 2] (fun _ _ => (0, 0, 0, 0)) (0, 1) []
    (by decide) (by decide)
  exact ⟨h.1, h.2.2.2 0 (by decide)⟩

/-- C2: for every input of N ≥ 2 points, the midpoint sequence of
`colored_line` has length N+1, its first entry equals the first input
point, its last entry equals the last input point, and each interior entry
`i` (1..N-1) equals `0.5 * (point[i-1] + point[i])`. -/
theorem C2_midpoint_sequence (x : List ℚ) (hN : 2 ≤ x.length) :
    (midpts x).length = x.length + 1 ∧
    (midpts x).getD 0 0 = x.getD 0 0 ∧
    (midpts x).getD x.length 0 = x.getD (x.length - 1) 0 ∧
    (∀ i, 1 ≤ i → i < x.length →
      (midpts x).getD i 0 = (1 / 2 : ℚ) * (x.getD (i - 1) 0 + x.getD i 0)) := by
  have hx : x ≠ [] := by
    intro h
    rw [h] at hN
    simp at hN
  refine ⟨length_midpts x hx, ?_, ?_, ?_⟩
  · rw [getD_midpts_zero, headI_eq_getD]
  · rw [getD_midpts_length x 0 hx, getLastD_eq_getD x hx]
  · intro i h1 hi
    obtain ⟨j, rfl⟩ : ∃ j, i = j + 1 := ⟨i - 1, by omega⟩
    rw [getD_midpts_succ x 0 j (by omega)]
    have hj : j + 1 - 1 = j := by omega
    rw [hj]
    ring

/-- Witness for C2 at the two-point input `x = [0, 2]`: midpoint sequence of
length 3 whose first and last entries are the original first and last
points. -/
theorem C2_midpoint_sequence_witness :
    (midpts [(0 : ℚ), 2]).length = 3 ∧
    (midpts [(0 : ℚ), 2]).getD 0 0 = [(0 : ℚ), 2].getD 0 0 ∧
    (midpts [(0 : ℚ), 2]).getD 2 0 = [(0 : ℚ), 2].getD 1 0 := by
  have h := C2_midpoint_sequence [(0 : ℚ), 2] (by decide)
  exact ⟨h.1, h.2.1, h.2.2.1⟩

/-- C10 (implicit): in the segment list built by `colored_line` for N ≥ 2
points, the first sub-segment is degenerate at its start and the last at
its end: the first sub-segment's first two vertices both equal the first
input point, and the last sub-segment's last two vertices both equal the
last input point. -/
theorem C10_degenerate_end_segments (x y : List ℚ) (hN : 2 ≤ x.length)
    (hy : y.length = x.length) :
    ((segmentsOf x y).getD 0 []).getD 0 (0, 0) = (x.getD 0 0, y.getD 0 0) ∧
    ((segmentsOf x y).getD 0 []).getD 1 (0, 0) = (x.getD 0 0, y.getD 0 0) ∧
    ((segmentsOf x y).getD (x.length - 1) []).getD 1 (0, 0) =
      (x.getD (x.length - 1) 0, y.getD (x.length - 1) 0) ∧
    ((segmentsOf x y).getD (x.length - 1) []).getD 2 (0, 0) =
      (x.getD (x.length - 1) 0, y.getD (x.length - 1) 0) := by
  have hx : x ≠ [] := by
    intro h
    rw [h] at hN
    simp at hN
  have hy' : y ≠ [] := by
    intro h
    rw [h] at hy
    have : x.length = 0 := by simpa using hy.symm
    omega
  have hN1 : x.length - 1 + 1 = x.length := by omega
  have hyx : y.length - 1 = x.length - 1 := by omega
  rw [getD_segmentsOf x y hx hy 0 (by omega), getD_segmentsOf x y hx hy (x.length - 1) (by omega)]
  have hx0 : (midpts x).getD 0 0 = x.getD 0 0 := by rw [getD_midpts_zero, headI_eq_getD]
  have hy0 : (midpts y).getD 0 0 = y.getD 0 0 := by rw [getD_midpts_zero, headI_eq_getD]
  have hxlast : (midpts x).getD x.length 0 = x.getD (x.length - 1) 0 := by
    rw [getD_midpts_length x 0 hx, getLastD_eq_getD x hx]
  have hylast : (midpts y).getD x.length 0 = y.getD (x.length - 1) 0 := by
    rw [← hy, getD_midpts_length y 0 hy', getLastD_eq_getD y hy', hyx]
  refine ⟨?_, ?_, ?_, ?_⟩
  · show ((midpts x).getD 0 0, (midpts y).getD 0 0) = (x.getD 0 0, y.getD 0 0)
    rw [hx0, hy0]
  · simp
  · simp
  · show ((midpts x).getD (x.length - 1 + 1) 0, (midpts y).getD (x.length - 1 + 1) 0) =
      (x.getD (x.length - 1) 0, y.getD (x.length - 1) 0)
    rw [hN1, hxlast, hylast]

/-- Witness for C10 at `x = [0,1,2]`, `y = [1,0,1]`. -/
theorem C10_degenerate_end_segments_witness :
    ((segmentsOf [0, 1, 2] [1, 0, 1]).getD 0 []).getD 0 (0, 0) =
      ([(0 : ℚ), 1, 2].getD 0 0, [(1 : ℚ), 0, 1].getD 0 0) ∧
    ((segmentsOf [0, 1, 2] [1, 0, 1]).getD 0 []).getD 1 (0, 0) =
      ([(0 : ℚ), 1, 2].getD 0 0, [(1 : ℚ), 0, 1].getD 0 0) ∧
    ((segmentsOf [0, 1, 2] [1, 0, 1]).getD 2 []).getD 1 (0, 0) =
      ([(0 : ℚ), 1, 2].getD 2 0, [(1 : ℚ), 0, 1].getD 2 0) ∧
    ((segmentsOf [0, 1, 2] [1, 0, 1]).getD 2 []).getD 2 (0, 0) =
      ([(0 : ℚ), 1, 2].getD 2 0, [(1 : ℚ), 0, 1].getD 2 0) :=
  C10_degenerate_end_segments [0, 1, 2] [1, 0, 1] (by decide) (by decide)

/-! ### Properties of Python max and min over lists -/

lemma foldl_max_le (t : List ℚ) (a b : ℚ) (ha : a ≤ b) (ht : ∀ v ∈ t, v ≤ b) :
    t.foldl max a ≤ b := by
  induction t generalizing a with
  | nil => simpa using ha
  | cons x t ih =>
    simp only [List.foldl_cons]
    exact ih (max a x) (max_le ha (ht x (by simp))) (fun v hv => ht v (by simp [hv]))

lemma le_foldl_max (t : List ℚ) (a c : ℚ) (h : c ≤ a ∨ c ∈ t) : c ≤ t.foldl max a := by
  induction t generalizing a with
  | nil => simpa using h.resolve_right (by simp)
  | cons x t ih =>
    simp only [List.foldl_cons]
    rcases h with h | h
    · exact ih (max a x) (Or.inl (le_trans h (le_max_left a x)))
    · rcases List.mem_cons.mp h with rfl | h
      · exact ih (max a c) (Or.inl (le_max_right a c))
      · exact ih (max a x) (Or.inr h)

lemma pyMax_eq (l : List ℚ) (b : ℚ) (hmem : b ∈ l) (hub : ∀ v ∈ l, v ≤ b) : pyMax l = b := by
  cases l with
  | nil => simp at hmem
  | cons h t =>
    simp only [pyMax]
    apply le_antisymm
    · exact foldl_max_le t h b (hub h (by simp)) (fun v hv => hub v (by simp [hv]))
    · rcases List.mem_cons.mp hmem with rfl | hb
      · exact le_foldl_max t b b (Or.inl le_rfl)
      · exact le_foldl_max t h b (Or.inr hb)

lemma foldl_min_ge (t : List ℚ) (a b : ℚ) (ha : b ≤ a) (ht : ∀ v ∈ t, b ≤ v) :
    b ≤ t.foldl min a := by
  induction t generalizing a with
  | nil => simpa using ha
  | cons x t ih =>
    simp only [List.foldl_cons]
    exact ih (min a x) (le_min ha (ht x (by simp))) (fun v hv => ht v (by simp [hv]))

lemma foldl_min_le (t : List ℚ) (a c : ℚ) (h : a ≤ c ∨ c ∈ t) : t.foldl min a ≤ c := by
  induction t generalizing a with
  | nil => simpa using h.resolve_right (by simp)
  | cons x t ih =>
    simp only [List.foldl_cons]
    rcases h with h | h
    · exact ih (min a x) (Or.inl (le_trans (min_le_left a x) h))
    · rcases List.mem_cons.mp h with rfl | h
      · exact ih (min a c) (Or.inl (min_le_right a c))
      · exact ih (min a x) (Or.inr h)

lemma pyMin_eq (l : List ℚ) (b : ℚ) (hmem : b ∈ l) (hlb : ∀ v ∈ l, b ≤ v) : pyMin l = b := by
  cases l with
  | nil => simp at hmem
  | cons h t =>
    simp only [pyMin]
    apply le_antisymm
    · rcases List.mem_cons.mp hmem with rfl | hb
      · exact foldl_min_le t b b (Or.inl le_rfl)
      · exact foldl_min_le t h b (Or.inr hb)
    · exact foldl_min_ge t h b (hlb h (by simp)) (fun v hv => hlb v (by simp [hv]))

/-- C4: in `VdP_Plotter.phase`, for data whose x (respectively y) values
span `[min, max]`, the rendered axis limits equal
`[min - 0.1 * (max - min), max + 0.1 * (max - min)]`; in the degenerate
case where all values are equal the margin is 0 and the plotted range has
zero width. -/
theorem C4_axis_margins (p : VdPPlotter) (reg : String → ℚ → Color) (sh : Bool)
    (sv : Option String) (xlo xhi ylo yhi c : ℚ)
    (hxlo : xlo ∈ p.x) (hxhi : xhi ∈ p.x) (hxb : ∀ v ∈ p.x, xlo ≤ v ∧ v ≤ xhi)
    (hylo : ylo ∈ p.xder) (hyhi : yhi ∈ p.xder) (hyb : ∀ v ∈ p.xder, ylo ≤ v ∧ v ≤ yhi) :
    (p.phase reg sh sv).2.xlim = (xlo - 1 / 10 * (xhi - xlo), xhi + 1 / 10 * (xhi - xlo)) ∧
    (p.phase reg sh sv).2.ylim = (ylo - 1 / 10 * (yhi - ylo), yhi + 1 / 10 * (yhi - ylo)) ∧
    ((∀ v ∈ p.x, v = c) → (p.phase reg sh sv).2.xlim = (c, c)) := by
  have hxmax : pyMax p.x = xhi := pyMax_eq _ _ hxhi (fun v hv => (hxb v hv).2)
  have hxmin : pyMin p.x = xlo := pyMin_eq _ _ hxlo (fun v hv => (hxb v hv).1)
  have hymax : pyMax p.xder = yhi := pyMax_eq _ _ hyhi (fun v hv => (hyb v hv).2)
  have hymin : pyMin p.xder = ylo := pyMin_eq _ _ hylo (fun v hv => (hyb v hv).1)
  refine ⟨?_, ?_, ?_⟩
  · show (pyMin p.x - 1 / 10 * (pyMax p.x - pyMin p.x),
      pyMax p.x + 1 / 10 * (pyMax p.x - pyMin p.x)) = _
    rw [hxmax, hxmin]
  · show (pyMin p.xder - 1 / 10 * (pyMax p.xder - pyMin p.xder),
      pyMax p.xder + 1 / 10 * (pyMax p.xder - pyMin p.xder)) = _
    rw [hymax, hymin]
  · intro hc
    have hc1 : xlo = c := hc xlo hxlo
    have hc2 : xhi = c := hc xhi hxhi
    show (pyMin p.x - 1 / 10 * (pyMax p.x - pyMin p.x),
      pyMax p.x + 1 / 10 * (pyMax p.x - pyMin p.x)) = (c, c)
    rw [hxmax, hxmin, hc1, hc2]
    simp only [Prod.mk.injEq]
    constructor <;> ring

/-- Witness for C4 at the end-to-end scenario of the specification:
position `[0,1,2,1,0]` spanning `[0, 2]` and velocity `[1,0,-1,0,1]`
spanning `[-1, 1]`. -/
theorem C4_axis_margins_witness :
    ((VdPPlotter.init [0, 1, 2, 1, 0] [1, 0, -1, 0, 1] [0, 1, 2, 3, 4] ⟨.int 1⟩ (.int 1)
        (.float (mkRat 1 100)) (.int 50) (.int 8) 0 none).phase
        (fun _ _ => (0, 0, 0, 0)) false none).2.xlim =
      (0 - 1 / 10 * (2 - 0), 2 + 1 / 10 * (2 - 0)) ∧
    ((VdPPlotter.init [0, 1, 2, 1, 0] [1, 0, -1, 0, 1] [0, 1, 2, 3, 4] ⟨.int 1⟩ (.int 1)
        (.float (mkRat 1 100)) (.int 50) (.int 8) 0 none).phase
        (fun _ _ => (0, 0, 0, 0)) false none).2.ylim =
      (-1 - 1 / 10 * (1 - -1), 1 + 1 / 10 * (1 - -1)) := by
  have h := C4_axis_margins
    (VdPPlotter.init [0, 1, 2, 1, 0] [1, 0, -1, 0, 1] [0, 1, 2, 3, 4] ⟨.int 1⟩ (.int 1)
      (.float (mkRat 1 100)) (.int 50) (.int 8) 0 none)
    (fun _ _ => (0, 0, 0, 0)) false none 0 2 (-1) 1 0
    (by norm_num [VdPPlotter.init]) (by norm_num [VdPPlotter.init])
    (by norm_num [VdPPlotter.init]) (by norm_num [VdPPlotter.init])
    (by norm_num [VdPPlotter.init]) (by norm_num [VdPPlotter.init])
  exact ⟨h.1, h.2.1⟩

/-! ### Properties of colormap truncation -/

lemma length_linspace (a b : ℚ) (n : ℕ) : (linspace a b n).length = n := by
  rw [linspace, List.length_map, List.length_range]

lemma getElem_linspace (a b : ℚ) (n i : ℕ) (h : i < (linspace a b n).length) :
    (linspace a b n)[i] = a + (b - a) * i / ((n : ℚ) - 1) := by
  simp only [linspace, List.getElem_map, List.getElem_range]

lemma lerpC_zero (u v : Color) : lerpC u v 0 = u := by simp [lerpC]

lemma cmEval_node (cs : List Color) (hk : 2 ≤ cs.length) (i : ℕ) (hi : i < cs.length) :
    cmEval cs ((i : ℚ) / ((cs.length : ℚ) - 1)) = cs.getD i (0, 0, 0, 0) := by
  have hne : ((cs.length : ℚ) - 1) ≠ 0 := by
    have h2 : (2 : ℚ) ≤ (cs.length : ℚ) := by exact_mod_cast hk
    intro h
    rw [sub_eq_zero] at h
    rw [h] at h2
    norm_num at h2
  have hs : ((i : ℚ) / ((cs.length : ℚ) - 1)) * ((cs.length : ℚ) - 1) = (i : ℚ) :=
    div_mul_cancel₀ _ hne
  simp only [cmEval, hs, Int.floor_natCast, Int.toNat_natCast]
  by_cases hlt : i + 1 < cs.length
  · rw [if_pos hlt, sub_self, lerpC_zero]
  · rw [if_neg hlt]
    have hel : cs.length - 1 = i := by omega
    rw [hel]

/-- C6: `truncate_colormap` with bounds `(0, 1)` and step count `k`
produces the original gradient sampled at `k` evenly spaced points, and
truncation is idempotent: re-truncating the already-truncated gradient to
the same bounds with the same step count yields the same gradient. -/
theorem C6_truncation_identity_idempotent (cm : ℚ → Color) (k : ℕ) (hk : 2 ≤ k) :
    truncate_colormap cm 0 1 k = (linspace 0 1 k).map cm ∧
    truncate_colormap (cmEval (truncate_colormap cm 0 1 k)) 0 1 k =
      truncate_colormap cm 0 1 k := by
  refine ⟨rfl, ?_⟩
  apply List.ext_getElem
  · simp [truncate_colormap, length_linspace]
  · intro i h1 h2
    have hi : i < k := by
      have := h2
      simpa [truncate_colormap, length_linspace] using this
    have hb : i < (linspace (0 : ℚ) 1 k).length := by rw [length_linspace]; exact hi
    have hcs : ((linspace (0 : ℚ) 1 k).map cm).length = k := by simp [length_linspace]
    have hkcs : 2 ≤ ((linspace (0 : ℚ) 1 k).map cm).length := by rw [hcs]; exact hk
    have hics : i < ((linspace (0 : ℚ) 1 k).map cm).length := by rw [hcs]; exact hi
    have hval : (linspace (0 : ℚ) 1 k)[i] =
        (i : ℚ) / ((((linspace (0 : ℚ) 1 k).map cm).length : ℚ) - 1) := by
      rw [getElem_linspace, hcs]
      ring
    simp only [truncate_colormap, List.getElem_map]
    rw [hval, cmEval_node _ hkcs i hics, List.getD_eq_getElem _ _ hics, List.getElem_map, hval]

/-- Witness for C6 at a concrete gradient and `k = 3`. -/
theorem C6_truncation_identity_idempotent_witness :
    truncate_colormap (fun u => (u, 0, 0, 0)) 0 1 3 =
      (linspace 0 1 3).map (fun u => (u, 0, 0, 0)) ∧
    truncate_colormap (cmEval (truncate_colormap (fun u => (u, 0, 0, 0)) 0 1 3)) 0 1 3 =
      truncate_colormap (fun u => (u, 0, 0, 0)) 0 1 3 :=
  C6_truncation_identity_idempotent (fun u => (u, 0, 0, 0)) 3 (by decide)

/-- C7: a call to `colored_line` whose keyword options include a raw
`"array"` argument emits a warning, does not fail (the model is a total
function), and the supplied value is overridden by the per-point color
values `c` on the returned collection; a call without an `"array"` keyword
emits no warning. -/
theorem C7_array_kwarg_warning (x y c : List ℚ) (reg : String → ℚ → Color) (tr : ℚ × ℚ)
    (kw : List (String × KwArg)) :
    ("array" ∈ kwKeys kw →
      (colored_line x y c reg tr kw).warns =
        ["The provided \"array\" keyword argument will be overridden"]) ∧
    ("array" ∉ kwKeys kw → (colored_line x y c reg tr kw).warns = []) ∧
    (colored_line x y c reg tr kw).lc.arrayVal = some c := by
  refine ⟨?_, ?_, rfl⟩
  · intro h
    simp [colored_line, h]
  · intro h
    simp [colored_line, h]

/-- Witness for C7: a call with a raw `"array"` keyword argument and a call
without one. -/
theorem C7_array_kwarg_warning_witness :
    (colored_line [0, 1] [0, 1] [0, 1] (fun _ _ => (0, 0, 0, 0)) (0, 1)
        [("array", KwArg.arr [5])]).warns =
      ["The provided \"array\" keyword argument will be overridden"] ∧
    (colored_line [0, 1] [0, 1] [0, 1] (fun _ _ => (0, 0, 0, 0)) (0, 1)
        [("array", KwArg.arr [5])]).lc.arrayVal = some [0, 1] ∧
    (colored_line [0, 1] [0, 1] [0, 1] (fun _ _ => (0, 0, 0, 0)) (0, 1) []).warns = [] := by
  have h1 := C7_array_kwarg_warning [0, 1] [0, 1] [0, 1] (fun _ _ => (0, 0, 0, 0)) (0, 1)
    [("array", KwArg.arr [5])]
  have h2 := C7_array_kwarg_warning [0, 1] [0, 1] [0, 1] (fun _ _ => (0, 0, 0, 0)) (0, 1) []
  exact ⟨h1.1 (by decide), h1.2.2, h2.2.1 (by decide)⟩

/-- C8: before binding the gradient to the segment collection,
`colored_line` restricts the named gradient to the sub-range given by its
gradient-range pair (whose Python default is `[0, 1]`) re-sampled into
exactly N discrete steps where N is the number of input points, and the
phase-portrait render calls it with gradient range `[0.15, 0.75]` of the
reversed magma gradient. -/
theorem C8_gradient_restriction (x y c : List ℚ) (reg : String → ℚ → Color) (tr : ℚ × ℚ)
    (kw : List (String × KwArg)) (p : VdPPlotter) (sh : Bool) (sv : Option String) :
    (colored_line x y c reg tr kw).lc.cmapData =
      some (truncate_colormap (reg (colored_line x y c reg tr kw).lc.cmapName) tr.1 tr.2
        x.length) ∧
    (truncate_colormap (reg (colored_line x y c reg tr kw).lc.cmapName) tr.1 tr.2
        x.length).length = x.length ∧
    cmapTruncDefault = (0, 1) ∧
    (p.phase reg sh sv).2.cl.lc.cmapName = "magma_r" ∧
    (p.phase reg sh sv).2.cl.lc.cmapData =
      some (truncate_colormap (reg "magma_r") (15 / 100) (75 / 100) p.x.length) := by
  refine ⟨rfl, ?_, rfl, rfl, rfl⟩
  simp [truncate_colormap, length_linspace]

/-- C9: neither construction, caption generation, nor the phase and signal
render operations mutate the stored input data: after any of these
operations every stored field equals the value supplied at construction. -/
theorem C9_inputs_immutable (x xder t : List ℚ) (params : OscParams)
    (alpha dt T n_eval : PyNum) (comp_time : ℚ) (forcing : Option ForcingParams)
    (reg : String → ℚ → Color) (sh sh2 : Bool) (sv sv2 : Option String) :
    (VdPPlotter.init x xder t params alpha dt T n_eval comp_time forcing).x = x ∧
    (VdPPlotter.init x xder t params alpha dt T n_eval comp_time forcing).xder = xder ∧
    (VdPPlotter.init x xder t params alpha dt T n_eval comp_time forcing).t = t ∧
    (VdPPlotter.init x xder t params alpha dt T n_eval comp_time forcing).params = params ∧
    (VdPPlotter.init x xder t params alpha dt T n_eval comp_time forcing).alpha = alpha ∧
    (VdPPlotter.init x xder t params alpha dt T n_eval comp_time forcing).dt = dt ∧
    (VdPPlotter.init x xder t params alpha dt T n_eval comp_time forcing).T = T ∧
    (VdPPlotter.init x xder t params alpha dt T n_eval comp_time forcing).n_eval = n_eval ∧
    (VdPPlotter.init x xder t params alpha dt T n_eval comp_time forcing).comp_time = comp_time ∧
    (VdPPlotter.init x xder t params alpha dt T n_eval comp_time forcing).forcing_params =
      forcing ∧
    ((VdPPlotter.init x xder t params alpha dt T n_eval comp_time forcing).captions).1 =
      VdPPlotter.init x xder t params alpha dt T n_eval comp_time forcing ∧
    ((VdPPlotter.init x xder t params alpha dt T n_eval comp_time forcing).phase reg sh sv).1 =
      VdPPlotter.init x xder t params alpha dt T n_eval comp_time forcing ∧
    ((VdPPlotter.init x xder t params alpha dt T n_eval comp_time forcing).signal sh2 sv2).1 =
      VdPPlotter.init x xder t params alpha dt T n_eval comp_time forcing :=
  ⟨rfl, rfl, rfl, rfl, rfl, rfl, rfl, rfl, rfl, rfl, rfl, rfl, rfl⟩

/-! ### Character-level facts about the rendered numbers and captions -/

/-- The ten decimal digit characters. -/
def digitChars : List Char := ['0', '1', '2', '3', '4', '5', '6', '7', '8', '9']

/-- Every character a rendered number can contain. -/
def numCharsAllowed : List Char := '-' :: '.' :: '/' :: digitChars

lemma digCh_mem (d : ℕ) (h : d < 10) : digCh d ∈ digitChars := by
  interval_cases d <;> decide

lemma mem_natCharsAux (f n : ℕ) : ∀ c ∈ natCharsAux f n, c ∈ digitChars := by
  induction f generalizing n with
  | zero =>
    intro c hc
    simp [natCharsAux] at hc
  | succ f ih =>
    intro c hc
    rw [natCharsAux] at hc
    by_cases h : n < 10
    · rw [if_pos h] at hc
      simp at hc
      subst hc
      exact digCh_mem n h
    · rw [if_neg h] at hc
      rcases List.mem_append.mp hc with hc | hc
      · exact ih (n / 10) c hc
      · simp at hc
        subst hc
        exact digCh_mem (n % 10) (Nat.mod_lt n (by omega))

lemma mem_natChars (n : ℕ) : ∀ c ∈ natChars n, c ∈ digitChars := mem_natCharsAux (n + 1) n

lemma digit_mem_allowed {c : Char} (h : c ∈ digitChars) : c ∈ numCharsAllowed := by
  simp only [numCharsAllowed, List.mem_cons]
  exact Or.inr (Or.inr (Or.inr h))

lemma mem_intChars (i : ℤ) : ∀ c ∈ intChars i, c ∈ numCharsAllowed := by
  intro c hc
  rw [intChars] at hc
  by_cases h : i < 0
  · rw [if_pos h] at hc
    rcases List.mem_cons.mp hc with rfl | hc
    · decide
    · exact digit_mem_allowed (mem_natChars _ c hc)
  · rw [if_neg h] at hc
    exact digit_mem_allowed (mem_natChars _ c hc)

lemma mem_padZeros (k : ℕ) (l : List Char) : ∀ c ∈ padZeros k l, c = '0' ∨ c ∈ l := by
  intro c hc
  rw [padZeros] at hc
  rcases List.mem_append.mp hc with hc | hc
  · exact Or.inl (List.eq_of_mem_replicate hc)
  · exact Or.inr hc

lemma mem_floatChars (q : ℚ) : ∀ c ∈ floatChars q, c ∈ numCharsAllowed := by
  intro c hc
  rw [floatChars] at hc
  cases hd : decExp q.den with
  | none =>
    rw [hd] at hc
    simp only [List.mem_append] at hc
    rcases hc with (hc | hc) | hc
    · exact mem_intChars _ c hc
    · simp at hc
      subst hc
      decide
    · exact digit_mem_allowed (mem_natChars _ c hc)
  | some k =>
    rw [hd] at hc
    simp only [List.mem_append] at hc
    rcases hc with ((hc | hc) | hc) | hc
    · by_cases hs : q.num < 0
      · rw [if_pos hs] at hc
        simp at hc
        subst hc
        decide
      · rw [if_neg hs] at hc
        simp at hc
    · exact digit_mem_allowed (mem_natChars _ c hc)
    · simp at hc
      subst hc
      decide
    · by_cases hk : k = 0
      · rw [if_pos hk] at hc
        simp at hc
        subst hc
        exact digit_mem_allowed (by decide)
      · rw [if_neg hk] at hc
        rcases mem_padZeros _ _ c hc with rfl | hc
        · exact digit_mem_allowed (by decide)
        · exact digit_mem_allowed (mem_natChars _ c hc)

lemma mem_pyChars (v : PyNum) : ∀ c ∈ pyChars v, c ∈ numCharsAllowed := by
  cases v with
  | int n => exact mem_intChars n
  | float q => exact mem_floatChars q

lemma data_pyStr (v : PyNum) : (pyStr v).data = pyChars v := rfl

/-- Every character the subtitle can contain when no forcing text is
emitted. -/
def subtitleChars : List Char := numCharsAllowed ++ "$\\alpha=, .Thqmu".data

lemma chars_subset_append {L l₁ l₂ : List Char}
    (h1 : ∀ c ∈ l₁, c ∈ L) (h2 : ∀ c ∈ l₂, c ∈ L) : ∀ c ∈ l₁ ++ l₂, c ∈ L := by
  intro c hc
  rcases List.mem_append.mp hc with h | h
  · exact h1 c h
  · exact h2 c h

lemma strData_append_subset {L : List Char} {a b : String}
    (h1 : ∀ c ∈ a.data, c ∈ L) (h2 : ∀ c ∈ b.data, c ∈ L) :
    ∀ c ∈ (a ++ b).data, c ∈ L := by
  rw [String.data_append]
  exact chars_subset_append h1 h2

lemma pyStr_subset_subtitleChars (v : PyNum) : ∀ c ∈ (pyStr v).data, c ∈ subtitleChars := by
  intro c hc
  rw [data_pyStr] at hc
  exact List.mem_append.mpr (Or.inl (mem_pyChars v c hc))

lemma middle_subset {l₁ l₂ : List Char} (h : l₁ <:+: l₂) : ∀ c ∈ l₁, c ∈ l₂ := by
  have h' : ∃ s t, s ++ l₁ ++ t = l₂ := h
  obtain ⟨s, t, rfl⟩ := h'
  intro c hc
  simp [hc]

lemma subtitle_no_forcing_chars (params : OscParams) (alpha dt T n_eval : PyNum)
    (fparams : Option ForcingParams)
    (hfs : fparams = none ∨ ∃ fp, fparams = some fp ∧ fp.A.val = 0) :
    ∀ c ∈ (generate_captions params alpha dt T n_eval fparams).2.data, c ∈ subtitleChars := by
  have hfrac : ∀ c ∈ (if alpha.val = 1 then "" else "\\alpha=" ++ pyStr alpha ++ ", ").data,
      c ∈ subtitleChars := by
    by_cases ha : alpha.val = 1
    · rw [if_pos ha]
      intro c hc
      simp at hc
    · rw [if_neg ha]
      exact strData_append_subset
        (strData_append_subset (by decide) (pyStr_subset_subtitleChars alpha)) (by decide)
  have hsub : (generate_captions params alpha dt T n_eval fparams).2 =
      "$" ++ (if alpha.val = 1 then "" else "\\alpha=" ++ pyStr alpha ++ ", ") ++ "\\mu=" ++
      pyStr params.mu ++ "" ++ ". T = " ++ pyStr (npRound2 T) ++ ", h=" ++
      pyStr (npRound2 dt) ++ ", q = " ++ pyStr (PyNum.int (pyToInt n_eval)) ++ "$" := by
    rcases hfs with rfl | ⟨fp, rfl, hA0⟩
    · by_cases ha : alpha.val = 1
      · simp [generate_captions, ha]
      · simp [generate_captions, ha]
    · by_cases ha : alpha.val = 1
      · simp [generate_captions, ha, hA0]
      · simp [generate_captions, ha, hA0]
  rw [hsub]
  exact strData_append_subset (strData_append_subset (strData_append_subset
    (strData_append_subset (strData_append_subset (strData_append_subset
      (strData_append_subset (strData_append_subset (strData_append_subset
        (strData_append_subset (strData_append_subset (by decide) hfrac) (by decide))
        (pyStr_subset_subtitleChars params.mu)) (by decide)) (by decide))
      (pyStr_subset_subtitleChars (npRound2 T))) (by decide))
    (pyStr_subset_subtitleChars (npRound2 dt))) (by decide))
    (pyStr_subset_subtitleChars (PyNum.int (pyToInt n_eval)))) (by decide)

/-- C3: the generated title equals
`"[fractionally ]dampened [forced ]VdP Oscillator"`, where `"fractionally "`
appears iff `alpha ≠ 1` and `"forced "` appears iff forcing parameters are
present with amplitude `A ≠ 0`; in particular `alpha = 1` with no forcing
yields exactly `"dampened VdP Oscillator"`, and `alpha = 0.5` with
amplitude 0 yields a title containing `"fractionally"` but not
`"forced"`. -/
theorem C3_title_pattern (params : OscParams) (alpha dt T n_eval : PyNum)
    (fparams : Option ForcingParams) :
    (generate_captions params alpha dt T n_eval fparams).1 =
      (if alpha.val = 1 then "" else "fractionally ") ++ "dampened " ++
      (if forcingActive fparams then "forced " else "") ++ "VdP Oscillator" ∧
    ("fractionally".data <:+: (generate_captions params alpha dt T n_eval fparams).1.data ↔
      alpha.val ≠ 1) ∧
    ("forced".data <:+: (generate_captions params alpha dt T n_eval fparams).1.data ↔
      forcingActive fparams) ∧
    (alpha.val = 1 → fparams = none →
      (generate_captions params alpha dt T n_eval fparams).1 = "dampened VdP Oscillator") ∧
    (∀ fp, alpha.val = 1 / 2 → fparams = some fp → fp.A.val = 0 →
      "fractionally".data <:+: (generate_captions params alpha dt T n_eval fparams).1.data ∧
      ¬ "forced".data <:+: (generate_captions params alpha dt T n_eval fparams).1.data) := by
  have htitle : (generate_captions params alpha dt T n_eval fparams).1 =
      (if alpha.val = 1 then "" else "fractionally ") ++ "dampened " ++
      (if forcingActive fparams then "forced " else "") ++ "VdP Oscillator" := by
    rcases fparams with _ | fp
    · have hf : ¬ forcingActive none := by simp [forcingActive]
      rw [if_neg hf]
      by_cases ha : alpha.val = 1
      · simp [generate_captions, ha]
      · simp [generate_captions, ha]
    · by_cases hA : fp.A.val ≠ 0
      · have hf : forcingActive (some fp) := ⟨fp, rfl, hA⟩
        rw [if_pos hf]
        by_cases ha : alpha.val = 1
        · simp [generate_captions, ha, hA]
        · simp [generate_captions, ha, hA]
      · rw [not_not] at hA
        have hf : ¬ forcingActive (some fp) := by simp [forcingActive, hA]
        rw [if_neg hf]
        by_cases ha : alpha.val = 1
        · simp [generate_captions, ha, hA]
        · simp [generate_captions, ha, hA]
  refine ⟨htitle, ?_, ?_, ?_, ?_⟩
  · rw [htitle]
    by_cases ha : alpha.val = 1
    · rw [if_pos ha]
      by_cases hf : forcingActive fparams
      · rw [if_pos hf]
        simp only [ha, ne_eq, not_true_eq_false, iff_false]
        decide
      · rw [if_neg hf]
        simp only [ha, ne_eq, not_true_eq_false, iff_false]
        decide
    · rw [if_neg ha]
      by_cases hf : forcingActive fparams
      · rw [if_pos hf]
        simp only [ha, ne_eq, not_false_eq_true, iff_true]
        decide
      · rw [if_neg hf]
        simp only [ha, ne_eq, not_false_eq_true, iff_true]
        decide
  · rw [htitle]
    by_cases hf : forcingActive fparams
    · rw [if_pos hf]
      by_cases ha : alpha.val = 1
      · rw [if_pos ha]
        simp only [hf, iff_true]
        decide
      · rw [if_neg ha]
        simp only [hf, iff_true]
        decide
    · rw [if_neg hf]
      by_cases ha : alpha.val = 1
      · rw [if_pos ha]
        simp only [hf, iff_false]
        decide
      · rw [if_neg ha]
        simp only [hf, iff_false]
        decide
  · intro ha hnone
    subst hnone
    have hf : ¬ forcingActive none := by simp [forcingActive]
    rw [htitle, if_pos ha, if_neg hf]
    decide
  · intro fp ha hsome hA0
    subst hsome
    have ha' : ¬ (alpha.val = 1) := by rw [ha]; norm_num
    have hf : ¬ forcingActive (some fp) := by simp [forcingActive, hA0]
    rw [htitle, if_neg ha', if_neg hf]
    exact ⟨by decide, by decide⟩

/-- Witness for C3: `alpha = 1`, no forcing, gives exactly
`"dampened VdP Oscillator"`; `alpha = 0.5` with amplitude 0 gives a title
with `"fractionally"` and without `"forced"`. -/
theorem C3_title_pattern_witness :
    (generate_captions ⟨.int 1⟩ (.int 1) (.int 1) (.int 50) (.int 8) none).1 =
      "dampened VdP Oscillator" ∧
    "fractionally".data <:+:
      (generate_captions ⟨.int 1⟩ (.float (mkRat 1 2)) (.int 1) (.int 50) (.int 8)
        (some ⟨.int 0, .float (mkRat 1 1)⟩)).1.data ∧
    ¬ "forced".data <:+:
      (generate_captions ⟨.int 1⟩ (.float (mkRat 1 2)) (.int 1) (.int 50) (.int 8)
        (some ⟨.int 0, .float (mkRat 1 1)⟩)).1.data := by
  have h1 := C3_title_pattern ⟨.int 1⟩ (.int 1) (.int 1) (.int 50) (.int 8) none
  have h2 := C3_title_pattern ⟨.int 1⟩ (.float (mkRat 1 2)) (.int 1) (.int 50) (.int 8)
    (some ⟨.int 0, .float (mkRat 1 1)⟩)
  have hv : (PyNum.float (mkRat 1 2)).val = 1 / 2 := by norm_num [PyNum.val, mkRat]
  have h2' := h2.2.2.2.2 ⟨.int 0, .float (mkRat 1 1)⟩ hv rfl (by norm_num [PyNum.val])
  exact ⟨h1.2.2.2.1 (by norm_num [PyNum.val]) rfl, h2'.1, h2'.2⟩

/-- C5 (amended): if forcing parameters are present and `A ≠ 0`, the
subtitle appends the amplitude rendered verbatim (unrounded) and the
angular frequency rounded to 2 decimals; if forcing parameters are absent,
or present with `A = 0`, the subtitle contains no amplitude or frequency
text. -/
theorem C5_subtitle_forcing_amended (params : OscParams) (alpha dt T n_eval : PyNum)
    (fparams : Option ForcingParams) :
    (∀ fp, fparams = some fp → fp.A.val ≠ 0 →
      (", A=" ++ pyStr fp.A ++ ", \\omega=" ++ pyStr (npRound2 fp.omega)).data <:+:
        (generate_captions params alpha dt T n_eval fparams).2.data) ∧
    ((fparams = none ∨ ∃ fp, fparams = some fp ∧ fp.A.val = 0) →
      ¬ "A=".data <:+: (generate_captions params alpha dt T n_eval fparams).2.data ∧
      ¬ "\\omega".data <:+: (generate_captions params alpha dt T n_eval fparams).2.data) := by
  constructor
  · intro fp hsome hA
    subst hsome
    show ∃ s t, s ++ (", A=" ++ pyStr fp.A ++ ", \\omega=" ++ pyStr (npRound2 fp.omega)).data ++
      t = (generate_captions params alpha dt T n_eval (some fp)).2.data
    refine ⟨("$" ++ (if alpha.val = 1 then "" else "\\alpha=" ++ pyStr alpha ++ ", ") ++
      "\\mu=" ++ pyStr params.mu).data,
      (". T = " ++ pyStr (npRound2 T) ++ ", h=" ++ pyStr (npRound2 dt) ++ ", q = " ++
        pyStr (PyNum.int (pyToInt n_eval)) ++ "$").data, ?_⟩
    by_cases ha : alpha.val = 1
    · simp [generate_captions, ha, hA, String.data_append]
    · simp [generate_captions, ha, hA, String.data_append]
  · intro hfs
    have hchars := subtitle_no_forcing_chars params alpha dt T n_eval fparams hfs
    constructor
    · intro h
      have hmem : 'A' ∈ subtitleChars := hchars 'A' (middle_subset h 'A' (by decide))
      exact absurd hmem (by decide)
    · intro h
      have hmem : 'o' ∈ subtitleChars := hchars 'o' (middle_subset h 'o' (by decide))
      exact absurd hmem (by decide)

/-- Witness for C5 (amended), at amplitude `A = 1.125` and `omega = 1.0`
(forcing active), and at absent forcing. -/
theorem C5_subtitle_forcing_amended_witness :
    (", A=" ++ pyStr (.float (mkRat 9 8)) ++ ", \\omega=" ++
      pyStr (npRound2 (.float (mkRat 1 1)))).data <:+:
      (generate_captions ⟨.int 1⟩ (.int 1) (.float (mkRat 1 100)) (.int 50) (.int 8)
        (some ⟨.float (mkRat 9 8), .float (mkRat 1 1)⟩)).2.data ∧
    ¬ "A=".data <:+:
      (generate_captions ⟨.int 1⟩ (.int 1) (.float (mkRat 1 100)) (.int 50) (.int 8)
        none).2.data := by
  have h1 := C5_subtitle_forcing_amended ⟨.int 1⟩ (.int 1) (.float (mkRat 1 100)) (.int 50)
    (.int 8) (some ⟨.float (mkRat 9 8), .float (mkRat 1 1)⟩)
  have h2 := C5_subtitle_forcing_amended ⟨.int 1⟩ (.int 1) (.float (mkRat 1 100)) (.int 50)
    (.int 8) none
  exact ⟨h1.1 ⟨.float (mkRat 9 8), .float (mkRat 1 1)⟩ rfl
    (by norm_num [PyNum.val, mkRat, Rat.normalize]), (h2.2 (Or.inl rfl)).1⟩

/-- C5 counterexample: with amplitude `A = 1.125` (a float whose rounding
to 2 decimals is `1.12`) and `omega = 1.0`, the generated subtitle does
not contain the amplitude rounded to 2 decimals followed by the rounded
angular frequency: the code renders the amplitude with `str(A)`,
unrounded, so the subtitle carries `", A=1.125, \omega=1.0"` and not
`", A=1.12, \omega=1.0"`. -/
theorem C5_subtitle_forcing_counterexample :
    (generate_captions ⟨.int 1⟩ (.int 1) (.float (mkRat 1 100)) (.int 50) (.int 8)
      (some ⟨.float (mkRat 9 8), .float (mkRat 1 1)⟩)).2 =
      "$\\mu=1, A=1.125, \\omega=1.0. T = 50, h=0.01, q = 8$" ∧
    ¬ (", A=" ++ pyStr (npRound2 (.float (mkRat 9 8))) ++ ", \\omega=" ++
        pyStr (npRound2 (.float (mkRat 1 1)))).data <:+:
      (generate_captions ⟨.int 1⟩ (.int 1) (.float (mkRat 1 100)) (.int 50) (.int 8)
        (some ⟨.float (mkRat 9 8), .float (mkRat 1 1)⟩)).2.data := by
  have hA : (PyNum.float (mkRat 9 8)).val ≠ 0 := by
    norm_num [PyNum.val, mkRat, Rat.normalize]
  have ha : (PyNum.int 1).val = 1 := by norm_num [PyNum.val]
  have h1 : pyStr (PyNum.float (mkRat 9 8)) = "1.125" := by decide
  have h2 : pyStr (npRound2 (PyNum.float (mkRat 9 8))) = "1.12" := by decide
  have h3 : pyStr (npRound2 (PyNum.float (mkRat 1 1))) = "1.0" := by decide
  have h4 : pyStr (npRound2 (PyNum.int 50)) = "50" := by decide
  have h5 : pyStr (npRound2 (PyNum.float (mkRat 1 100))) = "0.01" := by decide
  have h6 : pyStr (PyNum.int (pyToInt (PyNum.int 8))) = "8" := by decide
  have h7 : pyStr (PyNum.int 1) = "1" := by decide
  have hsub : (generate_captions ⟨.int 1⟩ (.int 1) (.float (mkRat 1 100)) (.int 50) (.int 8)
      (some ⟨.float (mkRat 9 8), .float (mkRat 1 1)⟩)).2 =
      "$\\mu=1, A=1.125, \\omega=1.0. T = 50, h=0.01, q = 8$" := by
    have e1 : (generate_captions ⟨.int 1⟩ (.int 1) (.float (mkRat 1 100)) (.int 50) (.int 8)
        (some ⟨.float (mkRat 9 8), .float (mkRat 1 1)⟩)).2 =
        "$" ++ "" ++ "\\mu=" ++ pyStr (PyNum.int 1) ++
        (", A=" ++ pyStr (PyNum.float (mkRat 9 8)) ++ ", \\omega=" ++
          pyStr (npRound2 (PyNum.float (mkRat 1 1)))) ++ ". T = " ++
        pyStr (npRound2 (PyNum.int 50)) ++ ", h=" ++
        pyStr (npRound2 (PyNum.float (mkRat 1 100))) ++ ", q = " ++
        pyStr (PyNum.int (pyToInt (PyNum.int 8))) ++ "$" := by
      simp [generate_captions, ha, hA]
    rw [e1, h1, h3, h4, h5, h6, h7]
    decide
  refine ⟨hsub, ?_⟩
  rw [hsub, h2, h3]
  decide

end Fracnum
